import Mathlib

/-!
# Verification of the blackjack round engine (`gui.py`)

Shallow embedding of the game logic of the single-file blackjack program:
the card/shoe model (`Deck`), hand valuation with soft-ace reduction
(`value_of_hand`), and the round engine (`new_round`, `hit`, `stand`,
`dealer_loop`, `end_round`) acting on an explicit `GameState`.

Python machine model used throughout:
* Python's arbitrary-precision `int` is embedded as `Int` (bankroll, bet)
  or `Nat` (hand values, which are sums of non-negative card values).
* `random.shuffle` is modelled by passing the sequence of shuffled decks
  produced by successive reshuffles as an explicit parameter
  (`shuffles : Nat → ...`); `Deck.resets` counts how many reshuffles have
  happened so far and indexes into that sequence.
* `list.pop()` removes the LAST element of a Python list, so the "top" of
  the shoe is the last element of `Deck.cards`.
* `int(self.bet * 2.5)` (truncation of `bet * 2.5`) is embedded as
  `(5 * bet) / 2`: for a positive integer bet this is exactly
  `floor(bet * 2.5)`, which coincides with Python's float computation for
  every bet below 2^51.
-/

/-- The four suits, `SUITS = ['♠', '♥', '♦', '♣']` in the source. -/
inductive Suit where
  | spades
  | hearts
  | diamonds
  | clubs
deriving DecidableEq

/-- The thirteen ranks, `RANKS = ['2', ..., '10', 'J', 'Q', 'K', 'A']`. -/
inductive Rank where
  | r2
  | r3
  | r4
  | r5
  | r6
  | r7
  | r8
  | r9
  | r10
  | J
  | Q
  | K
  | A
deriving DecidableEq

/-- A card is a (rank, suit) pair, as the tuples `(r, s)` in the source. -/
abbrev Card := Rank × Suit

/-- The list `SUITS` from the source. -/
def SUITS : List Suit := [Suit.spades, Suit.hearts, Suit.diamonds, Suit.clubs]

/-- The list `RANKS` from the source. -/
def RANKS : List Rank :=
  [Rank.r2, Rank.r3, Rank.r4, Rank.r5, Rank.r6, Rank.r7, Rank.r8, Rank.r9,
   Rank.r10, Rank.J, Rank.Q, Rank.K, Rank.A]

/-- `[(r, s) for s in SUITS for r in RANKS]`: the full 52-card deck built in
`Deck.__init__`. -/
def fullDeck : List Card := SUITS.flatMap (fun s => RANKS.map (fun r => (r, s)))

/-- Python's `int(r)` on the numeric rank strings `'2'..'10'`.  The face
ranks never reach this conversion in the source (the `else` branch of
`value_of_hand` only sees numeric ranks), so their value here is an
arbitrary unreachable default. -/
def numeric_value : Rank → Nat
  | Rank.r2 => 2
  | Rank.r3 => 3
  | Rank.r4 => 4
  | Rank.r5 => 5
  | Rank.r6 => 6
  | Rank.r7 => 7
  | Rank.r8 => 8
  | Rank.r9 => 9
  | Rank.r10 => 10
  | _ => 0

/-- One iteration of the accumulation loop of `value_of_hand`: given the
running `(vals, aces)` pair, add the next card's contribution.  Mirrors
the `for r, _ in hand` body (J/Q/K add 10; A adds 11 and counts an ace;
numeric ranks add `int(r)`). -/
def tallyStep (acc : Nat × Nat) (c : Card) : Nat × Nat :=
  match c.1 with
  | Rank.J => (acc.1 + 10, acc.2)
  | Rank.Q => (acc.1 + 10, acc.2)
  | Rank.K => (acc.1 + 10, acc.2)
  | Rank.A => (acc.1 + 11, acc.2 + 1)
  | r => (acc.1 + numeric_value r, acc.2)

/-- The accumulation loop of `value_of_hand`: returns `(vals, aces)` after
scanning the whole hand, starting from `(0, 0)`. -/
def tally (hand : List Card) : Nat × Nat := hand.foldl tallyStep (0, 0)

/-- The `while vals > 21 and aces` reduction loop of `value_of_hand`:
subtract 10 and consume one ace while the total still exceeds 21 and an
ace counted as 11 remains.  Recursion is on the ace count, which the loop
decrements every iteration. -/
def reduce_aces : Nat → Nat → Nat
  | vals, 0 => vals
  | vals, aces + 1 => if 21 < vals then reduce_aces (vals - 10) aces else vals

/-- `value_of_hand(hand)` from the source: accumulate `(vals, aces)` over
the hand, then run the soft-to-hard ace reduction loop. -/
def value_of_hand (hand : List Card) : Nat :=
  reduce_aces (tally hand).1 (tally hand).2

/-- Modelled from the spec (reference definition for C1): the value of a
single card with every Ace counted as 11 — "Face cards (J, Q, K) count 10;
numeric ranks count their face value; Ace counts as 11 initially." -/
def spec_card_value : Rank → Nat
  | Rank.J => 10
  | Rank.Q => 10
  | Rank.K => 10
  | Rank.A => 11
  | r => numeric_value r

/-- Modelled from the spec (reference definition for C1): `raw`, the sum of
all card values with every Ace at 11. -/
def raw_value (hand : List Card) : Nat :=
  (hand.map (fun c => spec_card_value c.1)).sum

/-- Modelled from the spec (reference definition for C1): `aceCount`, the
number of Aces in the hand. -/
def ace_count (hand : List Card) : Nat :=
  hand.countP (fun c => c.1 = Rank.A)

/-- Modelled from the spec (reference definition for C1): "While `raw > 21`
and `aceCount > 0`: subtract 10 from `raw`, decrement `aceCount`" — the
greedy soft-to-hard reduction, applied at most `aceCount` times. -/
def spec_reduce : Nat → Nat → Nat
  | raw, 0 => raw
  | raw, aceCount + 1 => if 21 < raw then spec_reduce (raw - 10) aceCount else raw

/-- Modelled from the spec (reference definition for C1): the hand value as
the spec words it — raw sum with aces at 11, then the greedy reduction. -/
def value_of_spec (hand : List Card) : Nat :=
  spec_reduce (raw_value hand) (ace_count hand)

-- The accumulation loop computes exactly (raw sum, ace count), shifted by
-- the starting accumulator.
theorem tally_foldl_eq (hand : List Card) :
    ∀ acc : Nat × Nat,
      hand.foldl tallyStep acc = (acc.1 + raw_value hand, acc.2 + ace_count hand) := by
  induction hand with
  | nil =>
      intro acc
      simp [raw_value, ace_count]
  | cons c t ih =>
      intro acc
      have hstep : tallyStep acc c =
          (acc.1 + spec_card_value c.1, acc.2 + if c.1 = Rank.A then 1 else 0) := by
        cases h : c.1 <;> simp [tallyStep, spec_card_value, h]
      have hraw : raw_value (c :: t) = spec_card_value c.1 + raw_value t := by
        simp [raw_value]
      have hace : ace_count (c :: t) = (if c.1 = Rank.A then 1 else 0) + ace_count t := by
        simp [ace_count, List.countP_cons]
        by_cases h : c.1 = Rank.A <;> simp [h, Nat.add_comm]
      rw [List.foldl_cons, hstep, ih, hraw, hace]
      simp only [Prod.mk.injEq]
      constructor <;> omega

theorem tally_eq (hand : List Card) :
    tally hand = (raw_value hand, ace_count hand) := by
  have := tally_foldl_eq hand (0, 0)
  simpa [tally] using this

theorem spec_reduce_eq_reduce_aces : ∀ a v, spec_reduce v a = reduce_aces v a := by
  intro a
  induction a with
  | zero => intro v; rfl
  | succ n ih =>
      intro v
      simp only [spec_reduce, reduce_aces]
      split
      · exact ih (v - 10)
      · rfl

/-- C1: for every hand, `value_of_hand` equals the spec's reference
definition — sum the ranks with J/Q/K as 10, numeric ranks at face value
and every Ace as 11, then while the total exceeds 21 and an ace counted as
11 remains subtract 10 (at most once per ace); the result may exceed 21
once the reductions are exhausted. -/
theorem value_of_hand_matches_spec (hand : List Card) :
    value_of_hand hand = value_of_spec hand := by
  rw [value_of_hand, value_of_spec, tally_eq, spec_reduce_eq_reduce_aces]

/-- C9: `value_of_hand` is a pure function of the multiset of cards — it is
invariant under any reordering (permutation) of the hand. -/
theorem value_of_hand_perm_invariant (h1 h2 : List Card) (hp : h1.Perm h2) :
    value_of_hand h1 = value_of_hand h2 := by
  have hraw : raw_value h1 = raw_value h2 :=
    List.Perm.sum_eq (List.Perm.map (fun c => spec_card_value c.1) hp)
  have hace : ace_count h1 = ace_count h2 :=
    List.Perm.countP_eq _ hp
  rw [value_of_hand, value_of_hand, tally_eq, tally_eq, hraw, hace]

/-- Witness for C9 at a concrete pair of hands: reordering `[A♠, K♥, 9♦]`
to `[9♦, A♠, K♥]` leaves the value (20) unchanged. -/
theorem value_of_hand_perm_invariant_witness :
    value_of_hand [(Rank.A, Suit.spades), (Rank.K, Suit.hearts), (Rank.r9, Suit.diamonds)] =
      value_of_hand [(Rank.r9, Suit.diamonds), (Rank.A, Suit.spades), (Rank.K, Suit.hearts)] :=
  value_of_hand_perm_invariant _ _ (by decide)

/-! ## The shoe (`Deck`) -/

/-- The mutable state of `Deck`: the undealt cards (`self.cards`, the top
of the shoe being the LAST element, since `pop()` pops from the end) and
the number of reshuffles performed so far (used to index into the stream
of shuffled decks that models `random.shuffle`). -/
structure Deck where
  cards : List Card
  resets : Nat
deriving DecidableEq

/-- A shuffled full deck: a list of cards that is a permutation of
`fullDeck`, as produced by `random.shuffle` on a fresh 52-card deck. -/
abbrev ShuffledDeck := {l : List Card // l.Perm fullDeck}

/-- The stream of shuffled decks consumed by successive reshuffles. -/
abbrev Shuffles := Nat → ShuffledDeck

theorem ShuffledDeck.ne_nil (s : ShuffledDeck) : s.1 ≠ [] := by
  intro hnil
  have hlen : s.1.length = fullDeck.length := s.2.length_eq
  rw [hnil] at hlen
  simp [fullDeck, SUITS, RANKS] at hlen

/-- `Deck.deal` from the source: `if not self.cards: self.__init__()` then
`return self.cards.pop()`.  The reshuffle installs the next shuffled deck
from the stream; `pop()` removes and returns the last element.  Total,
because after a reshuffle the shoe provably holds 52 > 0 cards. -/
def Deck.deal (shuffles : Shuffles) (d : Deck) : Card × Deck :=
  if h : d.cards = [] then
    let cs := (shuffles d.resets).1
    (cs.getLast (shuffles d.resets).ne_nil,
     { cards := cs.dropLast, resets := d.resets + 1 })
  else
    (d.cards.getLast h, { cards := d.cards.dropLast, resets := d.resets })

/-- Python's `list.pop()`: remove and return the last element; `none`
models the `IndexError` raised on an empty list. -/
def listPop (l : List Card) : Option (Card × List Card) :=
  if h : l = [] then none else some (l.getLast h, l.dropLast)

theorem listPop_of_ne_nil (l : List Card) (h : l ≠ []) :
    listPop l = some (l.getLast h, l.dropLast) := by
  rw [listPop, dif_neg h]

/-- `Deck.deal` again, but fallible exactly where Python's `pop()` is: it
returns `none` precisely when `pop()` would raise `IndexError` (empty list
at pop time), and the reshuffle stream is an arbitrary list stream, not
yet known to produce full decks.  Used to state C6 ("deal never fails"). -/
def Deck.dealOpt (shuffles : Nat → List Card) (d : Deck) : Option (Card × Deck) :=
  if d.cards = [] then
    (listPop (shuffles d.resets)).map
      (fun p => (p.1, { cards := p.2, resets := d.resets + 1 }))
  else
    (listPop d.cards).map (fun p => (p.1, { cards := p.2, resets := d.resets }))

/-- Iterated dealing with the fallible deal: `none` as soon as one deal
fails. -/
def dealIterOpt (shuffles : Nat → List Card) : Nat → Deck → Option Deck
  | 0, d => some d
  | n + 1, d =>
      match Deck.dealOpt shuffles d with
      | some p => dealIterOpt shuffles n p.2
      | none => none

theorem dealOpt_ne_none (shuffles : Nat → List Card)
    (hs : ∀ k, (shuffles k).length = 52) (d : Deck) :
    Deck.dealOpt shuffles d ≠ none := by
  rw [Deck.dealOpt]
  by_cases hc : d.cards = []
  · have hne : shuffles d.resets ≠ [] := by
      intro hnil
      have := hs d.resets
      rw [hnil] at this
      simp at this
    rw [if_pos hc, listPop_of_ne_nil _ hne]
    simp
  · rw [if_neg hc, listPop_of_ne_nil _ hc]
    simp

/-- The total `Deck.deal` and the fallible `Deck.dealOpt` agree: on a
stream of genuinely shuffled decks, the fallible deal always succeeds and
returns exactly what `Deck.deal` returns. -/
theorem dealOpt_eq_deal (shuffles : Shuffles) (d : Deck) :
    Deck.dealOpt (fun k => (shuffles k).1) d = some (Deck.deal shuffles d) := by
  rw [Deck.dealOpt, Deck.deal]
  by_cases hc : d.cards = []
  · rw [if_pos hc, dif_pos hc, listPop_of_ne_nil _ ((shuffles d.resets).ne_nil)]
    simp
  · rw [if_neg hc, dif_neg hc, listPop_of_ne_nil _ hc]
    simp

/-- C6: `deal()` never fails.  With any reshuffle stream of full 52-card
decks: (1) dealing never returns `none`; (2) on a non-empty shoe it
removes and returns the top (last) card, shrinking the undealt sequence by
one and performing no reshuffle; (3) on an empty shoe it first installs
the next full 52-card shuffled deck and then deals from it, leaving 51
cards; (4) iterated dealing never fails for any number of deals — in
particular the 53rd deal after exhausting a fresh 52-card shoe succeeds. -/
theorem deal_never_fails (shuffles : Nat → List Card)
    (hs : ∀ k, (shuffles k).length = 52) :
    (∀ d : Deck, Deck.dealOpt shuffles d ≠ none) ∧
    (∀ d : Deck, ∀ h : d.cards ≠ [],
      Deck.dealOpt shuffles d =
        some (d.cards.getLast h, { cards := d.cards.dropLast, resets := d.resets }) ∧
      d.cards.dropLast.length + 1 = d.cards.length) ∧
    (∀ d : Deck, d.cards = [] → ∀ h : shuffles d.resets ≠ [],
      Deck.dealOpt shuffles d =
        some ((shuffles d.resets).getLast h,
          { cards := (shuffles d.resets).dropLast, resets := d.resets + 1 }) ∧
      (shuffles d.resets).dropLast.length = 51) ∧
    (∀ (n : Nat) (d : Deck), dealIterOpt shuffles n d ≠ none) := by
  refine ⟨dealOpt_ne_none shuffles hs, ?_, ?_, ?_⟩
  · intro d h
    constructor
    · rw [Deck.dealOpt, if_neg h, listPop_of_ne_nil _ h]
      simp
    · have := List.length_dropLast d.cards
      have hlen : d.cards.length ≠ 0 := by
        intro h0
        exact h (List.length_eq_zero.mp h0)
      omega
  · intro d hc h
    constructor
    · rw [Deck.dealOpt, if_pos hc, listPop_of_ne_nil _ h]
      simp
    · have := List.length_dropLast (shuffles d.resets)
      have := hs d.resets
      omega
  · intro n
    induction n with
    | zero => intro d; simp [dealIterOpt]
    | succ m ih =>
        intro d
        rw [dealIterOpt]
        have hne := dealOpt_ne_none shuffles hs d
        match hd : Deck.dealOpt shuffles d with
        | some p => exact ih p.2
        | none => exact absurd hd hne

/-- Witness for C6: with the constant stream of (un-permuted) full decks,
dealing from an empty shoe succeeds, dealing from a one-card shoe returns
that card, and 53 successive deals from a fresh full shoe all succeed. -/
theorem deal_never_fails_witness :
    Deck.dealOpt (fun _ => fullDeck) { cards := [], resets := 0 } ≠ none ∧
    dealIterOpt (fun _ => fullDeck) 53 { cards := fullDeck, resets := 0 } ≠ none := by
  have h52 : ∀ k : Nat, ((fun _ => fullDeck) k).length = 52 := by
    intro k
    show fullDeck.length = 52
    decide
  have h := deal_never_fails (fun _ => fullDeck) h52
  exact ⟨h.1 _, h.2.2.2 53 _⟩

/-! ## The round engine (`BlackjackApp`) -/

/-- The engine-relevant mutable state of `BlackjackApp`: the shoe, both
hands, the round flag (`in_round = true` is the PlayerTurn state, `false`
covers Idle/Settled), the bankroll and the current bet. -/
structure GameState where
  deck : Deck
  player : List Card
  dealer : List Card
  in_round : Bool
  bankroll : Int
  bet : Int
deriving DecidableEq

/-- `self.deck = Deck(); self.player = []; self.dealer = [];
self.in_round = False; self.bankroll = 1000; self.bet = 10` from
`BlackjackApp.__init__`, with `s0` the initial shuffled deck. -/
def initState (s0 : ShuffledDeck) : GameState :=
  { deck := { cards := s0.1, resets := 0 }, player := [], dealer := [],
    in_round := false, bankroll := 1000, bet := 10 }

/-- The three settlement outcomes of `_end_round` (`'win'`, `'push'`,
`'lose'`). -/
inductive Result where
  | win
  | push
  | lose
deriving DecidableEq

/-- The `if/elif` chain of `_end_round` deciding the result from the final
player value `pv` and dealer value `dv`. -/
def round_result (pv dv : Nat) : Result :=
  if 21 < pv then Result.lose
  else if 21 < dv then Result.win
  else if dv < pv then Result.win
  else if pv = dv then Result.push
  else Result.lose

/-- The bankroll credit `_end_round` applies for each result: win pays
`bet * 2`, push returns the bet, lose pays nothing. -/
def payout : Result → Int → Int
  | Result.win, bet => 2 * bet
  | Result.push, bet => bet
  | Result.lose, _ => 0

/-- The bankroll right after the payout block of `_end_round` (lines
224-243 of the source): the incoming bankroll plus the payout for the
result decided from `pv` and `dv`. -/
def settled_bankroll (bankroll bet : Int) (pv dv : Nat) : Int :=
  bankroll + payout (round_result pv dv) bet

/-- `BlackjackApp._end_round`: recompute both hand values, credit the
payout, then apply the exhaustion rule `if self.bankroll <= 0:
self.bankroll = 1000`.  (The callers set `in_round = False` before calling
it; `_end_round` itself touches only the bankroll.) -/
def end_round (g : GameState) : GameState :=
  let s := settled_bankroll g.bankroll g.bet
    (value_of_hand g.player) (value_of_hand g.dealer)
  { g with bankroll := if s ≤ 0 then 1000 else s }

/-- The first card dealt at round start (`self.player`'s first card) and
the shoe state after it. -/
def deal1 (sh : Shuffles) (g : GameState) : Card × Deck := Deck.deal sh g.deck

/-- The second deal of a round start (player's second card). -/
def deal2 (sh : Shuffles) (g : GameState) : Card × Deck := Deck.deal sh (deal1 sh g).2

/-- The third deal of a round start (dealer's first card). -/
def deal3 (sh : Shuffles) (g : GameState) : Card × Deck := Deck.deal sh (deal2 sh g).2

/-- The fourth deal of a round start (dealer's second card). -/
def deal4 (sh : Shuffles) (g : GameState) : Card × Deck := Deck.deal sh (deal3 sh g).2

/-- `self.player = [self.deck.deal(), self.deck.deal()]`: the player's
opening hand, in draw order. -/
def dealt_player (sh : Shuffles) (g : GameState) : List Card :=
  [(deal1 sh g).1, (deal2 sh g).1]

/-- `self.dealer = [self.deck.deal(), self.deck.deal()]`: the dealer's
opening hand, dealt after the player's. -/
def dealt_dealer (sh : Shuffles) (g : GameState) : List Card :=
  [(deal3 sh g).1, (deal4 sh g).1]

/-- The body of `BlackjackApp.new_round` after the round-in-progress
check, given an already-parsed integer bet `b`: reject a non-positive bet
(`if b <= 0: raise ValueError`) or a bet above the bankroll, otherwise
deduct the bet, deal two cards to the player then two to the dealer, and
run the natural-blackjack check — player 21 and dealer not 21 pays
`int(bet * 2.5)` (= `(5 * bet) / 2`) and settles; both 21 refunds the bet
and settles; otherwise the round enters PlayerTurn. -/
def new_round_bet (sh : Shuffles) (b : Int) (g : GameState) : GameState :=
  if b ≤ 0 then g
  else if g.bankroll < b then g
  else if value_of_hand (dealt_player sh g) = 21 ∧ value_of_hand (dealt_dealer sh g) ≠ 21 then
    { deck := (deal4 sh g).2, player := dealt_player sh g, dealer := dealt_dealer sh g,
      in_round := false, bankroll := g.bankroll - b + (5 * b) / 2, bet := b }
  else if value_of_hand (dealt_player sh g) = 21 ∧ value_of_hand (dealt_dealer sh g) = 21 then
    { deck := (deal4 sh g).2, player := dealt_player sh g, dealer := dealt_dealer sh g,
      in_round := false, bankroll := g.bankroll - b + b, bet := b }
  else
    { deck := (deal4 sh g).2, player := dealt_player sh g, dealer := dealt_dealer sh g,
      in_round := true, bankroll := g.bankroll - b, bet := b }

/-- `BlackjackApp.new_round`.  The bet entry is modelled as
`betInput : Option Int`: `none` is unparsable bet text (Python's
`int(...)` raising `ValueError`), rejected by the same `except` branch as
a non-positive bet.  A round already in progress is also rejected with no
state change. -/
def new_round (sh : Shuffles) (betInput : Option Int) (g : GameState) : GameState :=
  if g.in_round then g
  else
    match betInput with
    | none => g
    | some b => new_round_bet sh b g

/-- `BlackjackApp.hit`: no-op unless a round is in progress; otherwise
deal one card to the player; if the new hand value exceeds 21 the round
ends immediately (`in_round = False`, then `_end_round`), else the state
stays in PlayerTurn. -/
def hit (sh : Shuffles) (g : GameState) : GameState :=
  if g.in_round = false then g
  else if 21 < value_of_hand (g.player ++ [(Deck.deal sh g.deck).1]) then
    end_round
      { g with
        deck := (Deck.deal sh g.deck).2,
        player := g.player ++ [(Deck.deal sh g.deck).1],
        in_round := false }
  else
    { g with
      deck := (Deck.deal sh g.deck).2,
      player := g.player ++ [(Deck.deal sh g.deck).1] }

/-- The hard value of a single card: every card counted at its minimum
(aces as 1).  Not a function of the source; it is the termination measure
for the dealer's drawing loop. -/
def hard_card_value : Rank → Nat
  | Rank.J => 10
  | Rank.Q => 10
  | Rank.K => 10
  | Rank.A => 1
  | r => numeric_value r

/-- The hard total of a hand (all aces as 1): a lower bound of
`value_of_hand` that strictly increases with every card drawn. -/
def hard_total (hand : List Card) : Nat :=
  (hand.map (fun c => hard_card_value c.1)).sum

theorem one_le_hard_card_value (r : Rank) : 1 ≤ hard_card_value r := by
  cases r <;> simp [hard_card_value, numeric_value]

theorem hard_total_append_one (hand : List Card) (c : Card) :
    hard_total (hand ++ [c]) = hard_total hand + hard_card_value c.1 := by
  simp [hard_total]

theorem reduce_aces_ge (a v : Nat) : v - 10 * a ≤ reduce_aces v a := by
  induction a generalizing v with
  | zero => simp [reduce_aces]
  | succ n ih =>
      rw [reduce_aces]
      split
      · have := ih (v - 10)
        omega
      · omega

theorem raw_value_eq_hard_add (hand : List Card) :
    raw_value hand = hard_total hand + 10 * ace_count hand := by
  induction hand with
  | nil => simp [raw_value, hard_total, ace_count]
  | cons c t ih =>
      have hr : raw_value (c :: t) = spec_card_value c.1 + raw_value t := by
        simp [raw_value]
      have hh : hard_total (c :: t) = hard_card_value c.1 + hard_total t := by
        simp [hard_total]
      have ha : ace_count (c :: t) = (if c.1 = Rank.A then 1 else 0) + ace_count t := by
        simp [ace_count, List.countP_cons]
        by_cases h : c.1 = Rank.A <;> simp [h, Nat.add_comm]
      rw [hr, hh, ha, ih]
      cases h : c.1 <;> simp [spec_card_value, hard_card_value, h] <;> ring

/-- The hard total never exceeds the computed hand value: the ace
reduction removes at most 10 per ace from the raw sum. -/
theorem hard_total_le_value (hand : List Card) :
    hard_total hand ≤ value_of_hand hand := by
  rw [value_of_hand, tally_eq]
  show hard_total hand ≤ reduce_aces (raw_value hand) (ace_count hand)
  have h1 := reduce_aces_ge (ace_count hand) (raw_value hand)
  have h2 := raw_value_eq_hard_add hand
  omega

/-- The drawing loop of `BlackjackApp._dealer_play`: `while
value_of_hand(self.dealer) < 17: self.dealer.append(self.deck.deal())`.
Terminates because every drawn card raises the hand's hard total by at
least 1 and the hard total is a lower bound of the value, which must stay
below 17 for the loop to continue. -/
def dealer_loop (sh : Shuffles) (dealer : List Card) (d : Deck) : List Card × Deck :=
  if h : value_of_hand dealer < 17 then
    dealer_loop sh (dealer ++ [(Deck.deal sh d).1]) (Deck.deal sh d).2
  else
    (dealer, d)
termination_by 17 - hard_total dealer
decreasing_by
  have h1 : hard_total dealer < 17 :=
    Nat.lt_of_le_of_lt (hard_total_le_value dealer) h
  have h2 := hard_total_append_one dealer (Deck.deal sh d).1
  have h3 := one_le_hard_card_value (Deck.deal sh d).1.1
  omega

/-- `BlackjackApp.stand`: no-op unless a round is in progress; otherwise
run the dealer's drawing loop (`_dealer_play`), clear the round flag and
settle via `_end_round`. -/
def stand (sh : Shuffles) (g : GameState) : GameState :=
  if g.in_round = false then g
  else
    end_round
      { g with
        dealer := (dealer_loop sh g.dealer g.deck).1,
        deck := (dealer_loop sh g.dealer g.deck).2,
        in_round := false }

/-- A fixed (identity) shuffle stream, used for concrete evaluations. -/
def shuffle_id : Shuffles := fun _ => ⟨fullDeck, List.Perm.refl fullDeck⟩

/-- A concrete settled round on the stand path, reaching the settlement
with a zero bankroll: the player went all-in (bet 10 from a bankroll of
10), stood at 18 against the dealer's 19. -/
def gameC2 : GameState :=
  { deck := { cards := [], resets := 0 },
    player := [(Rank.r10, Suit.spades), (Rank.r8, Suit.spades)],
    dealer := [(Rank.r10, Suit.hearts), (Rank.r9, Suit.hearts)],
    in_round := true, bankroll := 0, bet := 10 }

/-- A concrete PlayerTurn state with a zero (post-all-in) bankroll in
which the next hit busts: player holds K Q (20) and the shoe's top card
is a king. -/
def gameC5 : GameState :=
  { deck := { cards := [(Rank.K, Suit.clubs)], resets := 0 },
    player := [(Rank.K, Suit.hearts), (Rank.Q, Suit.hearts)],
    dealer := [(Rank.r10, Suit.hearts), (Rank.r9, Suit.hearts)],
    in_round := true, bankroll := 0, bet := 10 }

/-- The engine state right after `BlackjackApp.__init__` with the
deterministic identity shuffle: shoe in `fullDeck` order, bankroll 1000,
no round in progress. -/
def game0 : GameState := initState ⟨fullDeck, List.Perm.refl fullDeck⟩

/-- The engine states reachable from a fresh `BlackjackApp` (bankroll
1000, no round) by any sequence of user actions — starting a round with
any bet input, hitting, standing — under arbitrary shuffle streams. -/
inductive Reachable : GameState → Prop where
  | start (s0 : ShuffledDeck) : Reachable (initState s0)
  | step_new (sh : Shuffles) (inp : Option Int) {g : GameState} :
      Reachable g → Reachable (new_round sh inp g)
  | step_hit (sh : Shuffles) {g : GameState} :
      Reachable g → Reachable (hit sh g)
  | step_stand (sh : Shuffles) {g : GameState} :
      Reachable g → Reachable (stand sh g)

/-- The inductive invariant maintained by every engine operation: the
bankroll is never negative, the recorded bet is at least 1, and outside a
round (Idle/Settled) the bankroll is strictly positive. -/
def EngineInv (g : GameState) : Prop :=
  0 ≤ g.bankroll ∧ 1 ≤ g.bet ∧ (g.in_round = false → 0 < g.bankroll)

/-- C4: the dealer's automatic play after the player stands draws one card
at a time exactly while the dealer hand value is below 17, terminates
after finitely many draws (the drawn cards form a finite list `drawn`;
totality of `dealer_loop` was established by well-founded recursion on
the hand's hard total), and leaves the dealer's final hand value at 17 or
more.  Before each draw — i.e. after every proper prefix of the drawn
cards — the hand value is still below 17. -/
theorem dealer_play_terminates_ge_17 (sh : Shuffles) (dealer : List Card) (d : Deck) :
    ∃ drawn : List Card,
      (dealer_loop sh dealer d).1 = dealer ++ drawn ∧
      17 ≤ value_of_hand (dealer ++ drawn) ∧
      ∀ j < drawn.length, value_of_hand (dealer ++ drawn.take j) < 17 := by
  induction dealer, d using dealer_loop.induct sh with
  | case1 dealer d h ih =>
      obtain ⟨drawn', h1, h2, h3⟩ := ih
      refine ⟨(Deck.deal sh d).1 :: drawn', ?_, ?_, ?_⟩
      · rw [dealer_loop, dif_pos h, h1]
        simp
      · have : dealer ++ (Deck.deal sh d).1 :: drawn' =
            (dealer ++ [(Deck.deal sh d).1]) ++ drawn' := by simp
        rw [this]
        exact h2
      · intro j hj
        match j with
        | 0 => simpa using h
        | j' + 1 =>
            have hj' : j' < drawn'.length := by simpa using hj
            have : dealer ++ ((Deck.deal sh d).1 :: drawn').take (j' + 1) =
                (dealer ++ [(Deck.deal sh d).1]) ++ drawn'.take j' := by simp
            rw [this]
            exact h3 j' hj'
  | case2 dealer d h =>
      refine ⟨[], ?_, ?_, ?_⟩
      · rw [dealer_loop, dif_neg h]
        simp
      · simp
        omega
      · intro j hj
        simp at hj

/-- The settlement table of `_end_round` (lines 224-243): which result the
`if/elif` chain produces and what the payout block credits, in each of the
spec's cases. -/
theorem settlement_cases (pv dv : Nat) (bank b : Int) :
    (pv ≤ 21 → 21 < dv ∨ dv < pv →
      round_result pv dv = Result.win ∧ settled_bankroll bank b pv dv = bank + 2 * b) ∧
    (pv ≤ 21 → pv = dv →
      round_result pv dv = Result.push ∧ settled_bankroll bank b pv dv = bank + b) ∧
    ((pv ≤ 21 ∧ pv < dv ∧ dv ≤ 21) ∨ 21 < pv →
      round_result pv dv = Result.lose ∧ settled_bankroll bank b pv dv = bank) := by
  refine ⟨?_, ?_, ?_⟩
  · intro h1 h2
    have hres : round_result pv dv = Result.win := by
      rw [round_result]
      split_ifs <;> first | rfl | (exfalso; omega)
    rw [settled_bankroll, hres]
    simp [payout]
  · intro h1 h2
    have hres : round_result pv dv = Result.push := by
      rw [round_result]
      split_ifs <;> first | rfl | (exfalso; omega)
    rw [settled_bankroll, hres]
    simp [payout]
  · intro h1
    have hres : round_result pv dv = Result.lose := by
      rw [round_result]
      split_ifs <;> first | rfl | (exfalso; omega)
    rw [settled_bankroll, hres]
    simp [payout]

theorem dealer_loop_no_draw (sh : Shuffles) (dealer : List Card) (d : Deck)
    (h : ¬ value_of_hand dealer < 17) :
    dealer_loop sh dealer d = (dealer, d) := by
  rw [dealer_loop, dif_neg h]

theorem stand_eq (sh : Shuffles) (g : GameState) (hr : g.in_round = true) :
    stand sh g =
      end_round
        { g with
          dealer := (dealer_loop sh g.dealer g.deck).1,
          deck := (dealer_loop sh g.dealer g.deck).2,
          in_round := false } := by
  rw [stand, if_neg (by simp [hr])]

/-- Counterexample to C2 as stated: a settled round where the dealer
played (player stood at `pv = 18` without busting, dealer finished with
`dv = 19 ≤ 21`, so the result is Lose), yet the bankroll does NOT stay at
its post-bet-deduction value 0 — `_end_round`'s exhaustion check
(`if self.bankroll <= 0`) resets it to 1000. -/
theorem stand_lose_bankroll_changed :
    value_of_hand gameC2.player = 18 ∧
    value_of_hand gameC2.dealer = 19 ∧
    gameC2.in_round = true ∧
    gameC2.bankroll = 0 ∧
    round_result 18 19 = Result.lose ∧
    (stand shuffle_id gameC2).dealer = gameC2.dealer ∧
    (stand shuffle_id gameC2).bankroll = 1000 ∧
    (stand shuffle_id gameC2).bankroll ≠ gameC2.bankroll := by
  have hloop := dealer_loop_no_draw shuffle_id gameC2.dealer gameC2.deck (by decide)
  have hstand := stand_eq shuffle_id gameC2 rfl
  rw [hloop] at hstand
  refine ⟨by decide, by decide, rfl, rfl, by decide, ?_, ?_, ?_⟩ <;>
    rw [hstand] <;> decide

/-- C2 (amended): on the stand path the settlement block of `_end_round`
behaves exactly as the claim's table — Win pays `2 * bet`, Push returns
the bet, Lose pays nothing — and the final bankroll equals that settled
amount UNLESS the settled amount is ≤ 0 (only possible on a Lose after an
all-in bet), in which case the post-settlement exhaustion rule sets it to
1000. -/
theorem stand_settlement_amended (sh : Shuffles) (g : GameState) (hr : g.in_round = true) :
    (stand sh g).in_round = false ∧
    (stand sh g).bankroll =
      (if settled_bankroll g.bankroll g.bet (value_of_hand g.player)
          (value_of_hand (dealer_loop sh g.dealer g.deck).1) ≤ 0 then 1000
       else settled_bankroll g.bankroll g.bet (value_of_hand g.player)
          (value_of_hand (dealer_loop sh g.dealer g.deck).1)) ∧
    (value_of_hand g.player ≤ 21 →
      21 < value_of_hand (dealer_loop sh g.dealer g.deck).1 ∨
        value_of_hand (dealer_loop sh g.dealer g.deck).1 < value_of_hand g.player →
      round_result (value_of_hand g.player) (value_of_hand (dealer_loop sh g.dealer g.deck).1) =
        Result.win ∧
      settled_bankroll g.bankroll g.bet (value_of_hand g.player)
        (value_of_hand (dealer_loop sh g.dealer g.deck).1) = g.bankroll + 2 * g.bet) ∧
    (value_of_hand g.player ≤ 21 →
      value_of_hand g.player = value_of_hand (dealer_loop sh g.dealer g.deck).1 →
      round_result (value_of_hand g.player) (value_of_hand (dealer_loop sh g.dealer g.deck).1) =
        Result.push ∧
      settled_bankroll g.bankroll g.bet (value_of_hand g.player)
        (value_of_hand (dealer_loop sh g.dealer g.deck).1) = g.bankroll + g.bet) ∧
    ((value_of_hand g.player ≤ 21 ∧
        value_of_hand g.player < value_of_hand (dealer_loop sh g.dealer g.deck).1 ∧
        value_of_hand (dealer_loop sh g.dealer g.deck).1 ≤ 21) ∨
      21 < value_of_hand g.player →
      round_result (value_of_hand g.player) (value_of_hand (dealer_loop sh g.dealer g.deck).1) =
        Result.lose ∧
      settled_bankroll g.bankroll g.bet (value_of_hand g.player)
        (value_of_hand (dealer_loop sh g.dealer g.deck).1) = g.bankroll) := by
  rw [stand_eq sh g hr]
  have hc := settlement_cases (value_of_hand g.player)
    (value_of_hand (dealer_loop sh g.dealer g.deck).1) g.bankroll g.bet
  exact ⟨rfl, rfl, hc.1, hc.2.1, hc.2.2⟩

/-- Witness for the amended C2 at the concrete all-in round `gameC2`. -/
theorem stand_settlement_amended_witness :
    (stand shuffle_id gameC2).in_round = false :=
  (stand_settlement_amended shuffle_id gameC2 rfl).1

/-- Counterexample to C5 as stated: a `hit()` during PlayerTurn whose
dealt card busts the player (value 30 > 21).  The round is settled as
Lose without the dealer drawing, but the bankroll does NOT stay at its
post-bet-deduction value 0 — `_end_round`'s exhaustion check resets it to
1000. -/
theorem hit_bust_bankroll_changed :
    gameC5.in_round = true ∧
    gameC5.bankroll = 0 ∧
    21 < value_of_hand ((hit shuffle_id gameC5).player) ∧
    (hit shuffle_id gameC5).in_round = false ∧
    (hit shuffle_id gameC5).dealer = gameC5.dealer ∧
    (hit shuffle_id gameC5).bankroll = 1000 ∧
    (hit shuffle_id gameC5).bankroll ≠ gameC5.bankroll := by
  decide

theorem hit_bust_eq (sh : Shuffles) (g : GameState) (hr : g.in_round = true)
    (hb : 21 < value_of_hand (g.player ++ [(Deck.deal sh g.deck).1])) :
    hit sh g =
      end_round
        { g with
          deck := (Deck.deal sh g.deck).2,
          player := g.player ++ [(Deck.deal sh g.deck).1],
          in_round := false } := by
  rw [hit, if_neg (by simp [hr]), if_pos hb]

theorem hit_no_bust_eq (sh : Shuffles) (g : GameState) (hr : g.in_round = true)
    (hb : ¬ 21 < value_of_hand (g.player ++ [(Deck.deal sh g.deck).1])) :
    hit sh g =
      { g with
        deck := (Deck.deal sh g.deck).2,
        player := g.player ++ [(Deck.deal sh g.deck).1] } := by
  rw [hit, if_neg (by simp [hr]), if_neg hb]

/-- C5 (amended): a `hit()` during PlayerTurn deals one card to the
player.  If the new value exceeds 21 the round is immediately settled as
Lose without the dealer drawing any card (dealer hand untouched, shoe
advanced only by the player's card), the state becomes Settled, and the
settlement leaves the bankroll at its post-bet-deduction value UNLESS
that value is ≤ 0 (all-in bet), in which case the exhaustion rule resets
it to 1000.  Otherwise the state remains PlayerTurn with bankroll, bet
and dealer hand unchanged. -/
theorem hit_step_amended (sh : Shuffles) (g : GameState) (hr : g.in_round = true) :
    (21 < value_of_hand (g.player ++ [(Deck.deal sh g.deck).1]) →
      (hit sh g).in_round = false ∧
      (hit sh g).player = g.player ++ [(Deck.deal sh g.deck).1] ∧
      (hit sh g).dealer = g.dealer ∧
      (hit sh g).deck = (Deck.deal sh g.deck).2 ∧
      round_result (value_of_hand (g.player ++ [(Deck.deal sh g.deck).1]))
        (value_of_hand g.dealer) = Result.lose ∧
      settled_bankroll g.bankroll g.bet
        (value_of_hand (g.player ++ [(Deck.deal sh g.deck).1]))
        (value_of_hand g.dealer) = g.bankroll ∧
      (hit sh g).bankroll = (if g.bankroll ≤ 0 then 1000 else g.bankroll)) ∧
    (¬ 21 < value_of_hand (g.player ++ [(Deck.deal sh g.deck).1]) →
      (hit sh g).in_round = true ∧
      (hit sh g).player = g.player ++ [(Deck.deal sh g.deck).1] ∧
      (hit sh g).dealer = g.dealer ∧
      (hit sh g).deck = (Deck.deal sh g.deck).2 ∧
      (hit sh g).bankroll = g.bankroll ∧
      (hit sh g).bet = g.bet) := by
  constructor
  · intro hb
    have hlose := (settlement_cases (value_of_hand (g.player ++ [(Deck.deal sh g.deck).1]))
      (value_of_hand g.dealer) g.bankroll g.bet).2.2 (Or.inr hb)
    rw [hit_bust_eq sh g hr hb]
    refine ⟨rfl, rfl, rfl, rfl, hlose.1, hlose.2, ?_⟩
    show (if settled_bankroll g.bankroll g.bet
        (value_of_hand (g.player ++ [(Deck.deal sh g.deck).1]))
        (value_of_hand g.dealer) ≤ 0 then (1000 : Int)
      else settled_bankroll g.bankroll g.bet
        (value_of_hand (g.player ++ [(Deck.deal sh g.deck).1]))
        (value_of_hand g.dealer)) = _
    rw [hlose.2]
  · intro hb
    rw [hit_no_bust_eq sh g hr hb]
    exact ⟨hr, rfl, rfl, rfl, rfl, rfl⟩

/-- Witness for the amended C5 at the concrete busting hit `gameC5`. -/
theorem hit_step_amended_witness :
    (hit shuffle_id gameC5).in_round = false ∧
    (hit shuffle_id gameC5).dealer = gameC5.dealer := by
  have h := (hit_step_amended shuffle_id gameC5 rfl).1 (by decide)
  exact ⟨h.1, h.2.2.1⟩

theorem new_round_some (sh : Shuffles) (b : Int) (g : GameState) (hr : g.in_round = false) :
    new_round sh (some b) g = new_round_bet sh b g := by
  rw [new_round, if_neg (by simp [hr])]

/-- C3: an accepted `new_round(bet)` deals two cards to the player and two
to the dealer (in shoe order), deducts the bet, and runs the blackjack
check: player 21 against dealer non-21 credits exactly
`(5 * bet) / 2 = floor(bet * 2.5)` and settles (Win); both 21 credits the
bet back and settles (Push); otherwise the round enters PlayerTurn with no
further bankroll change beyond the deduction. -/
theorem new_round_blackjack_check (sh : Shuffles) (g : GameState) (b : Int)
    (hr : g.in_round = false) (hb : 0 < b) (hbr : b ≤ g.bankroll) :
    (new_round sh (some b) g).player = dealt_player sh g ∧
    (new_round sh (some b) g).dealer = dealt_dealer sh g ∧
    (new_round sh (some b) g).bet = b ∧
    (value_of_hand (dealt_player sh g) = 21 → value_of_hand (dealt_dealer sh g) ≠ 21 →
      (new_round sh (some b) g).bankroll = g.bankroll - b + (5 * b) / 2 ∧
      (new_round sh (some b) g).in_round = false) ∧
    (value_of_hand (dealt_player sh g) = 21 → value_of_hand (dealt_dealer sh g) = 21 →
      (new_round sh (some b) g).bankroll = g.bankroll - b + b ∧
      (new_round sh (some b) g).in_round = false) ∧
    (value_of_hand (dealt_player sh g) ≠ 21 →
      (new_round sh (some b) g).in_round = true ∧
      (new_round sh (some b) g).bankroll = g.bankroll - b) := by
  rw [new_round_some sh b g hr, new_round_bet, if_neg (by omega), if_neg (by omega)]
  split_ifs with h1 h2
  · refine ⟨rfl, rfl, rfl, ?_, ?_, ?_⟩
    · intro _ _
      exact ⟨rfl, rfl⟩
    · intro _ hd
      exact (h1.2 hd).elim
    · intro hp
      exact (hp h1.1).elim
  · refine ⟨rfl, rfl, rfl, ?_, ?_, ?_⟩
    · intro _ hd
      exact (hd h2.2).elim
    · intro _ _
      exact ⟨rfl, rfl⟩
    · intro hp
      exact (hp h2.1).elim
  · refine ⟨rfl, rfl, rfl, ?_, ?_, ?_⟩
    · intro hp hd
      exact (h1 ⟨hp, hd⟩).elim
    · intro hp hd
      exact (h2 ⟨hp, hd⟩).elim
    · intro _
      exact ⟨rfl, rfl⟩

/-- Witness for C3: from the fresh (identity-shuffled) state the four
popped cards are A♣ K♣ (player, value 21) and Q♣ J♣ (dealer, value 20),
so a bet of 10 is a natural blackjack: bankroll 1000 - 10 + 25 = 1015 and
the round settles. -/
theorem new_round_blackjack_witness :
    (new_round shuffle_id (some 10) game0).bankroll = 1015 ∧
    (new_round shuffle_id (some 10) game0).in_round = false := by
  have h := new_round_blackjack_check shuffle_id game0 10 rfl (by decide) (by decide)
  have hbj := h.2.2.2.1 (by decide) (by decide)
  exact ⟨hbj.1.trans (by decide), hbj.2⟩

/-- C7: every rejected engine call leaves the whole engine state
untouched: starting a round while one is in progress, an unparsable bet
(`none`), a non-positive bet, a bet exceeding the bankroll (the
`InsufficientBankroll` rejection), and `hit`/`stand` with no active round
all return the state unchanged (bankroll, hands, bet, shoe and round flag
alike). -/
theorem rejected_calls_leave_state (sh : Shuffles) (g : GameState) (b : Int) :
    (g.in_round = true → ∀ inp : Option Int, new_round sh inp g = g) ∧
    (new_round sh none g = g) ∧
    (b ≤ 0 → new_round sh (some b) g = g) ∧
    (g.bankroll < b → new_round sh (some b) g = g) ∧
    (g.in_round = false → hit sh g = g) ∧
    (g.in_round = false → stand sh g = g) := by
  refine ⟨?_, ?_, ?_, ?_, ?_, ?_⟩
  · intro hr inp
    rw [new_round.eq_def, if_pos hr]
  · by_cases hr : g.in_round = true
    · rw [new_round, if_pos hr]
    · rw [new_round, if_neg hr]
  · intro hb
    by_cases hr : g.in_round = true
    · rw [new_round, if_pos hr]
    · rw [new_round, if_neg hr]
      show new_round_bet sh b g = g
      rw [new_round_bet, if_pos hb]
  · intro hbb
    by_cases hr : g.in_round = true
    · rw [new_round, if_pos hr]
    · rw [new_round, if_neg hr]
      show new_round_bet sh b g = g
      by_cases hb0 : b ≤ 0
      · rw [new_round_bet, if_pos hb0]
      · rw [new_round_bet, if_neg hb0, if_pos hbb]
  · intro hr
    rw [hit, if_pos hr]
  · intro hr
    rw [stand, if_pos hr]

/-- Witness for C7: concrete rejections at the fresh state (no round in
progress): unparsable bet, bet 0, over-bankroll bet 2000, and `hit` and
`stand` outside a round, all leave the state identical. -/
theorem rejected_calls_witness :
    new_round shuffle_id none game0 = game0 ∧
    new_round shuffle_id (some 0) game0 = game0 ∧
    new_round shuffle_id (some 2000) game0 = game0 ∧
    hit shuffle_id game0 = game0 ∧
    stand shuffle_id game0 = game0 := by
  have h := rejected_calls_leave_state shuffle_id game0 0
  have h2 := rejected_calls_leave_state shuffle_id game0 2000
  exact ⟨h.2.1, h.2.2.1 (by decide), h2.2.2.2.1 (by decide),
    h.2.2.2.2.1 rfl, h.2.2.2.2.2 rfl⟩

/-- C8: after every settlement, a bankroll ≤ 0 is reset to exactly 1000.
On the two `_end_round` paths (stand, and player bust on hit) the check
is the literal `if self.bankroll <= 0: self.bankroll = 1000`.  On the
natural-blackjack settlement inside `new_round` (which has no reset code)
the rule holds because the settled bankroll is provably strictly positive
there — the blackjack payout `(5 * b) / 2 ≥ 2` resp. the push refund
leaves at least the original bet — so the reset condition never arises. -/
theorem bankroll_reset_on_settlement (sh : Shuffles) (g : GameState) (b : Int) :
    (g.in_round = true →
      settled_bankroll g.bankroll g.bet (value_of_hand g.player)
        (value_of_hand (dealer_loop sh g.dealer g.deck).1) ≤ 0 →
      (stand sh g).bankroll = 1000) ∧
    (g.in_round = true →
      21 < value_of_hand (g.player ++ [(Deck.deal sh g.deck).1]) →
      settled_bankroll g.bankroll g.bet
        (value_of_hand (g.player ++ [(Deck.deal sh g.deck).1]))
        (value_of_hand g.dealer) ≤ 0 →
      (hit sh g).bankroll = 1000) ∧
    (g.in_round = false → 0 < b → b ≤ g.bankroll →
      value_of_hand (dealt_player sh g) = 21 →
      0 < (new_round sh (some b) g).bankroll ∧
      ((new_round sh (some b) g).bankroll ≤ 0 →
        (new_round sh (some b) g).bankroll = 1000)) := by
  refine ⟨?_, ?_, ?_⟩
  · intro hr hs
    rw [stand_eq sh g hr]
    show (if settled_bankroll g.bankroll g.bet (value_of_hand g.player)
        (value_of_hand (dealer_loop sh g.dealer g.deck).1) ≤ 0 then (1000 : Int)
      else settled_bankroll g.bankroll g.bet (value_of_hand g.player)
        (value_of_hand (dealer_loop sh g.dealer g.deck).1)) = 1000
    rw [if_pos hs]
  · intro hr hb hs
    rw [hit_bust_eq sh g hr hb]
    show (if settled_bankroll g.bankroll g.bet
        (value_of_hand (g.player ++ [(Deck.deal sh g.deck).1]))
        (value_of_hand g.dealer) ≤ 0 then (1000 : Int)
      else settled_bankroll g.bankroll g.bet
        (value_of_hand (g.player ++ [(Deck.deal sh g.deck).1]))
        (value_of_hand g.dealer)) = 1000
    rw [if_pos hs]
  · intro hr hb hbr hp21
    rw [new_round_some sh b g hr, new_round_bet, if_neg (by omega), if_neg (by omega)]
    split_ifs with h1 h2
    · constructor
      · show 0 < g.bankroll - b + (5 * b) / 2
        omega
      · intro hle
        show g.bankroll - b + (5 * b) / 2 = 1000
        exfalso
        revert hle
        show ¬ g.bankroll - b + (5 * b) / 2 ≤ 0
        omega
    · constructor
      · show 0 < g.bankroll - b + b
        omega
      · intro hle
        exfalso
        revert hle
        show ¬ g.bankroll - b + b ≤ 0
        omega
    · exact (h1 ⟨hp21, fun hd => h2 ⟨hp21, hd⟩⟩).elim

/-- Witness for C8 on the stand path at the concrete all-in round
`gameC2`: the settled bankroll is 0 ≤ 0 and the final bankroll is the
reset value 1000. -/
theorem bankroll_reset_on_settlement_witness :
    (stand shuffle_id gameC2).bankroll = 1000 := by
  have hloop := dealer_loop_no_draw shuffle_id gameC2.dealer gameC2.deck (by decide)
  refine (bankroll_reset_on_settlement shuffle_id gameC2 10).1 rfl ?_
  rw [hloop]
  decide

theorem end_round_bankroll_pos (g : GameState) : 0 < (end_round g).bankroll := by
  show 0 < (if settled_bankroll g.bankroll g.bet (value_of_hand g.player)
      (value_of_hand g.dealer) ≤ 0 then (1000 : Int)
    else settled_bankroll g.bankroll g.bet (value_of_hand g.player)
      (value_of_hand g.dealer))
  split_ifs with hs
  · omega
  · omega

theorem inv_new_round (sh : Shuffles) (inp : Option Int) (g : GameState)
    (h : EngineInv g) : EngineInv (new_round sh inp g) := by
  by_cases hr : g.in_round = true
  · rw [new_round.eq_def, if_pos hr]
    exact h
  · have hr' : g.in_round = false := by simpa using hr
    match inp with
    | none =>
        rw [new_round, if_neg hr]
        exact h
    | some b =>
        rw [new_round_some sh b g hr', new_round_bet]
        split_ifs with h1 h2 h3 h4
        · exact h
        · exact h
        · refine ⟨?_, ?_, ?_⟩
          · show (0 : Int) ≤ g.bankroll - b + (5 * b) / 2
            omega
          · show (1 : Int) ≤ b
            omega
          · intro _
            show (0 : Int) < g.bankroll - b + (5 * b) / 2
            omega
        · refine ⟨?_, ?_, ?_⟩
          · show (0 : Int) ≤ g.bankroll - b + b
            omega
          · show (1 : Int) ≤ b
            omega
          · intro _
            show (0 : Int) < g.bankroll - b + b
            omega
        · refine ⟨?_, ?_, ?_⟩
          · show (0 : Int) ≤ g.bankroll - b
            omega
          · show (1 : Int) ≤ b
            omega
          · intro hf
            exact Bool.noConfusion hf

theorem inv_hit (sh : Shuffles) (g : GameState) (h : EngineInv g) :
    EngineInv (hit sh g) := by
  by_cases hr : g.in_round = false
  · rw [hit, if_pos hr]
    exact h
  · have hr' : g.in_round = true := by simpa using hr
    by_cases hb : 21 < value_of_hand (g.player ++ [(Deck.deal sh g.deck).1])
    · rw [hit_bust_eq sh g hr' hb]
      exact ⟨le_of_lt (end_round_bankroll_pos _), h.2.1,
        fun _ => end_round_bankroll_pos _⟩
    · rw [hit_no_bust_eq sh g hr' hb]
      exact ⟨h.1, h.2.1, fun hf => Bool.noConfusion (hr'.symm.trans hf)⟩

theorem inv_stand (sh : Shuffles) (g : GameState) (h : EngineInv g) :
    EngineInv (stand sh g) := by
  by_cases hr : g.in_round = false
  · rw [stand, if_pos hr]
    exact h
  · have hr' : g.in_round = true := by simpa using hr
    rw [stand_eq sh g hr']
    exact ⟨le_of_lt (end_round_bankroll_pos _), h.2.1,
      fun _ => end_round_bankroll_pos _⟩

theorem reachable_inv {g : GameState} (h : Reachable g) : EngineInv g := by
  induction h with
  | start s0 =>
      refine ⟨?_, ?_, fun _ => ?_⟩
      · show (0 : Int) ≤ 1000
        decide
      · show (1 : Int) ≤ 10
        decide
      · show (0 : Int) < 1000
        decide
  | step_new sh inp hg ih => exact inv_new_round sh inp _ ih
  | step_hit sh hg ih => exact inv_hit sh _ ih
  | step_stand sh hg ih => exact inv_stand sh _ ih

/-- C10: in every state reachable from a fresh engine (bankroll 1000) by
any sequence of `new_round`, `hit` and `stand` calls, the bankroll is
never negative, and whenever no round is in progress (Idle or Settled)
the bankroll is strictly positive. -/
theorem reachable_bankroll_nonneg (g : GameState) (h : Reachable g) :
    0 ≤ g.bankroll ∧ (g.in_round = false → 0 < g.bankroll) :=
  ⟨(reachable_inv h).1, (reachable_inv h).2.2⟩

/-- Witness for C10 at the reachable fresh state `game0`. -/
theorem reachable_bankroll_nonneg_witness :
    0 ≤ game0.bankroll ∧ (game0.in_round = false → 0 < game0.bankroll) :=
  reachable_bankroll_nonneg game0 (Reachable.start _)
